import Mathlib

/-!
Verification of the address-resolution engine in `src/data/contact.py`
(`get_geoID`).  The Python source is shallowly embedded: every regex
substitution, string cleanup, query-encoding step and the per-record /
per-segment control flow of `get_geoID` is translated into an executable
Lean function over `List Char` / `String`.  The two collaborator modules
that are not part of `src/` (`data/nominatim.py`, `data/spellcheck.py`)
are abstracted into a `GeoOracle` record: `fetch` stands for
`Nominatim.fetch_cache_or_web` and `detect` for
`GeoSpellChecker.get_country_code_from_text`.  The bare `except:` blocks
of the source mean a candidate query succeeds exactly when `fetch`
returns a non-empty result list (indexing `[0]` raises otherwise), which
is captured by `fetchHead`.
-/

namespace OCB

/-! ### Python-style character classes and string primitives -/

/-- Python regex `\s` on the ASCII range (the inputs the engine feeds these
scanners are ASCII after `unidecode`). -/
def wsChar (c : Char) : Bool :=
  c = ' ' || c = '\t' || c = '\n' || c = '\r' || c = '\x0b' || c = '\x0c'

/-- Characters stripped by `elem.strip(" \n\r.;,:")` in `get_geoID`. -/
def punctChar (c : Char) : Bool :=
  c = ' ' || c = '\n' || c = '\r' || c = '.' || c = ';' || c = ',' || c = ':'

/-- Python `str.strip(chars)`: drop characters satisfying `p` from both ends. -/
def stripCharsL (p : Char → Bool) (cs : List Char) : List Char :=
  ((cs.dropWhile p).reverse.dropWhile p).reverse

/-- Python `str.strip()` (no arguments): strip whitespace from both ends. -/
def pyStrip (s : String) : String :=
  String.mk (stripCharsL wsChar s.toList)

/-- Python `str.split(sep)` for a one-character separator; keeps empty pieces
and always returns at least one piece, like Python. -/
def pySplitL (sep : Char) : List Char → List (List Char)
  | [] => [[]]
  | c :: rest =>
    match pySplitL sep rest with
    | [] => [[]]
    | g :: gs => if c = sep then [] :: g :: gs else (c :: g) :: gs

def pySplitStr (sep : Char) (s : String) : List String :=
  (pySplitL sep s.toList).map String.mk

/-! ### The regex substitutions of `get_geoID`, lines 181-191 -/

/-- The escaped-parenthesis placeholder literals appearing in the pattern at
contact.py:181. -/
def escL : List Char := "@ESCAPEDLEFTPARENTHESIS@".toList

def escR : List Char := "@ESCAPEDRIGHTPARENTHESIS@".toList

/-- Length matched by `(?:\(|@ESCAPEDLEFTPARENTHESIS@)` at this position
(0 = no match). -/
def openerLen (cs : List Char) : Nat :=
  if cs.head? = some '(' then 1 else if escL.isPrefixOf cs then escL.length else 0

/-- Length matched by `(?:\)|@ESCAPEDRIGHTPARENTHESIS@)` at this position
(0 = no match). -/
def closerLen (cs : List Char) : Nat :=
  if cs.head? = some ')' then 1 else if escR.isPrefixOf cs then escR.length else 0

/-- Start offset and length of the last closer occurrence in `cs`; the greedy
`.*` of the pattern backtracks to the latest possible closer. -/
def lastCloser : List Char → Option (Nat × Nat)
  | [] => none
  | cs@(_ :: rest) =>
    match lastCloser rest with
    | some (t, l) => some (t + 1, l)
    | none => if closerLen cs ≠ 0 then some (0, closerLen cs) else none

/-- One `re.sub` scan step for the parenthetical pattern of contact.py:181;
`.*` does not cross `'\n'`, matches are replaced by a single space and the
scan resumes after the match.  Fuel is the length of the remaining input:
every step consumes at least one character, so it never runs out. -/
def parenGo : Nat → List Char → List Char
  | 0, cs => cs
  | _ + 1, [] => []
  | fuel + 1, cs@(c :: rest) =>
    let ol := openerLen cs
    if ol = 0 then c :: parenGo fuel rest
    else
      match lastCloser ((cs.drop ol).takeWhile (· ≠ '\n')) with
      | none => c :: parenGo fuel rest
      | some (t, l) => ' ' :: parenGo fuel (cs.drop (ol + t + l))

/-- contact.py:181 -- remove parenthetical spans, replacing each by a space. -/
def parenSub (s : String) : String :=
  String.mk (parenGo s.toList.length s.toList)

def dashChar (c : Char) : Bool :=
  c = '-' || c = '[' || c = ']' || c = '{' || c = '}'

/-- contact.py:184 -- `[\-\[\]\{\}]+` is replaced by one space per run; the
Boolean tracks whether we are inside a run already replaced. -/
def dashGo : Bool → List Char → List Char
  | _, [] => []
  | inRun, c :: cs =>
    if dashChar c then
      if inRun then dashGo true cs else ' ' :: dashGo true cs
    else c :: dashGo false cs

def dashSub (s : String) : String :=
  String.mk (dashGo false s.toList)

def nlChar (c : Char) : Bool := c = '\n' || c = '\r'

/-- contact.py:185 -- `[\n\r]+` is replaced by `", "` per run. -/
def nlGo : Bool → List Char → List Char
  | _, [] => []
  | inRun, c :: cs =>
    if nlChar c then
      if inRun then nlGo true cs else ',' :: ' ' :: nlGo true cs
    else c :: nlGo false cs

def nlSub (s : String) : String :=
  String.mk (nlGo false s.toList)

/-- contact.py:191 -- `re.sub("^\s*,\s*[^\S]", "", ...)`: when the string is
optional whitespace, a comma, then at least one whitespace character, the
whole prefix (through that whitespace run) is deleted; otherwise the string
is unchanged. -/
def leadingCommaSubL (cs : List Char) : List Char :=
  match cs.dropWhile wsChar with
  | ',' :: b => if (b.takeWhile wsChar).isEmpty then cs else b.dropWhile wsChar
  | _ => cs

def leadingCommaSub (s : String) : String :=
  String.mk (leadingCommaSubL s.toList)

/-- The `geohint` column preparation of contact.py:178-191 applied to one
`adr` cell.  The whitespace-collapse replace at contact.py:188 is written
without `inplace=True`, so its result is discarded; faithfully, no
whitespace collapsing happens here. -/
def geohintPipeline (adr : String) : String :=
  leadingCommaSub (nlSub (dashSub (parenSub adr)))

/-! ### Per-row decoding, contact.py:213-221 -/

/-- Model of the external `unidecode.unidecode(.., errors="ignore")` call:
ASCII characters are preserved (true of unidecode) and non-ASCII ones are
transliterated by tables external to this repository, modelled here as
dropped. -/
def unidecodeL (cs : List Char) : List Char :=
  cs.filter (fun c => c.toNat < 128)

/-- contact.py:217 -- `.replace("(c)", "")`, left to right, all occurrences. -/
def removeCopyrightL : List Char → List Char
  | '(' :: 'c' :: ')' :: rest => removeCopyrightL rest
  | c :: rest => c :: removeCopyrightL rest
  | [] => []

/-- contact.py:216-218 -- `.replace("\"", "").replace("(c)", "").replace("@", "")`
in that order. -/
def removeIllegalL (cs : List Char) : List Char :=
  (removeCopyrightL (cs.filter (· ≠ '"'))).filter (· ≠ '@')

def isUpperA (c : Char) : Bool := 'A' ≤ c && c ≤ 'Z'

/-- contact.py:221 -- `re.split(r"[A-Z]+: ", decoded)`.  A match is a maximal
uppercase run followed by `": "`; if a maximal run is not followed by `": "`
no position inside it can match either, so the whole run is emitted.  Fuel is
the input length; every step consumes at least one character. -/
def resplitGo : Nat → List Char → List Char → List String
  | 0, cs, acc => [String.mk (acc.reverse ++ cs)]
  | _ + 1, [], acc => [String.mk acc.reverse]
  | fuel + 1, cs@(c :: rest), acc =>
    let r := (cs.takeWhile isUpperA).length
    if r = 0 then resplitGo fuel rest (c :: acc)
    else
      match cs.drop r with
      | ':' :: ' ' :: rest2 => String.mk acc.reverse :: resplitGo fuel rest2 []
      | _ => resplitGo fuel (cs.drop r) ((cs.take r).reverse ++ acc)

def pyResplit (s : String) : List String :=
  resplitGo s.toList.length s.toList []

/-- The segment list of one record: contact.py:213-221 (unidecode, illegal
character removal, split on address-type tags). -/
def segmentsOf (geohint : String) : List String :=
  pyResplit (String.mk (removeIllegalL (unidecodeL geohint.toList)))

/-! ### Per-segment cleanup, contact.py:226-229 -/

/-- Length matched at this position by one `(\s?\,)` group: a comma, or one
whitespace character followed by a comma (0 = no match). -/
def commaGroupLen : List Char → Nat
  | ',' :: _ => 1
  | a :: ',' :: _ => if wsChar a then 2 else 0
  | _ => 0

/-- Total length matched by `(\s?\,)+` at this position (0 = no match).
Fuel is the input length; each group consumes at least one character. -/
def commaRunLen : Nat → List Char → Nat
  | 0, _ => 0
  | fuel + 1, cs =>
    let k := commaGroupLen cs
    if k = 0 then 0 else k + commaRunLen fuel (cs.drop k)

/-- contact.py:229 -- `re.sub(r"(\s?\,)+", ",", elem)`: each maximal match is
replaced by a single comma and the scan resumes after it. -/
def collapseCommasGo : Nat → List Char → List Char
  | 0, cs => cs
  | _ + 1, [] => []
  | fuel + 1, cs@(c :: rest) =>
    let k := commaRunLen cs.length cs
    if k = 0 then c :: collapseCommasGo fuel rest
    else ',' :: collapseCommasGo fuel (cs.drop k)

def collapseCommasL (cs : List Char) : List Char :=
  collapseCommasGo cs.length cs

/-- contact.py:226-229 -- `elem.strip(" \n\r.;,:").lower()` followed by the
comma-collapsing substitution.  `.lower()` is ASCII lowercasing here (the
input has passed through `unidecode`). -/
def cleanElem (e : String) : String :=
  String.mk (collapseCommasL ((stripCharsL punctChar e.toList).map Char.toLower))

/-! ### Query encoding, contact.py:233-235 (urlencode + "+" cleanup) -/

def hexDigit (n : Nat) : Char :=
  if n < 10 then Char.ofNat (48 + n) else Char.ofNat (55 + n)

/-- UTF-8 byte sequence of a character (Python percent-encodes these bytes). -/
def utf8Bytes (c : Char) : List Nat :=
  let n := c.toNat
  if n < 0x80 then [n]
  else if n < 0x800 then [0xC0 + n / 0x40, 0x80 + n % 0x40]
  else if n < 0x10000 then
    [0xE0 + n / 0x1000, 0x80 + (n / 0x40) % 0x40, 0x80 + n % 0x40]
  else
    [0xF0 + n / 0x40000, 0x80 + (n / 0x1000) % 0x40, 0x80 + (n / 0x40) % 0x40,
      0x80 + n % 0x40]

/-- Characters `urllib.parse.quote_plus` leaves unescaped. -/
def quoteSafe (c : Char) : Bool :=
  ('a' ≤ c && c ≤ 'z') || ('A' ≤ c && c ≤ 'Z') || ('0' ≤ c && c ≤ '9') ||
    c = '_' || c = '.' || c = '-' || c = '~'

/-- `urllib.parse.quote_plus`: space becomes `+`, safe characters stay,
everything else is percent-encoded byte by byte with uppercase hex. -/
def quotePlus (s : String) : String :=
  String.mk (s.toList.flatMap fun c =>
    if c = ' ' then ['+']
    else if quoteSafe c then [c]
    else (utf8Bytes c).flatMap fun b => ['%', hexDigit (b / 16), hexDigit (b % 16)])

/-- `urllib.parse.urlencode` over an ordered field list (Python dicts keep
insertion order). -/
def urlencodePairs (ps : List (String × String)) : String :=
  String.intercalate "&" (ps.map fun p => quotePlus p.1 ++ "=" ++ quotePlus p.2)

/-- `re.sub(r"[\+]+", "+", query)`: collapse runs of `+`. -/
def collapsePlusGo : Bool → List Char → List Char
  | _, [] => []
  | inRun, c :: cs =>
    if c = '+' then
      if inRun then collapsePlusGo true cs else '+' :: collapsePlusGo true cs
    else c :: collapsePlusGo false cs

/-- contact.py:235 etc. -- collapse `+` runs, then `.strip("+")`. -/
def finalizeQuery (q : String) : String :=
  String.mk (stripCharsL (· = '+') (collapsePlusGo false q.toList))

/-- Python renders a `None` country code as the string `"None"` inside
`urlencode` (contact.py:252 when the detector found no country). -/
def ccStr : Option String → String
  | none => "None"
  | some c => c

/-- The first, country-unrestricted query of a segment (contact.py:233-235). -/
def encodeFirst (elem : String) : String :=
  finalizeQuery (urlencodePairs [("q", elem), ("format", "json")])

/-- A country-restricted query (contact.py:251-254, 270-273, 284-287). -/
def encodeCC (text : String) (cc : Option String) : String :=
  finalizeQuery (urlencodePairs [("q", text), ("countrycodes", ccStr cc), ("format", "json")])

/-! ### The oracle for the external collaborators -/

/-- Failure kinds of one network-or-cache lookup (spec section 7). -/
inductive FetchErr
  | serviceUnavailable
  | noResults
deriving DecidableEq

/-- Modelled from the spec: the two collaborator modules of this repository
that are not under `src/`.  `fetch` stands for
`Nominatim.fetch_cache_or_web` in `data/nominatim.py` (returns the result
list for a fully encoded query or fails), `detect` for
`GeoSpellChecker.get_country_code_from_text` in `data/spellcheck.py`
(returns the optional ISO code and the text with the matched country token
removed; it is total and never throws). -/
structure GeoOracle where
  fetch : String → Except FetchErr (List String)
  detect : String → Option String × String

/-- `nominatim.fetch_cache_or_web(query)[0]` under the bare `except:` of the
source: the attempt succeeds with the first element exactly when `fetch`
returns a non-empty list; any exception (`ServiceUnavailable`, `NoResults`,
or the `IndexError` of `[0]` on an empty list) is caught identically. -/
def fetchHead (o : GeoOracle) (q : String) : Option String :=
  match o.fetch q with
  | .ok (r :: _) => some r
  | _ => none

/-! ### Fallback candidates, contact.py:258-293 -/

/-- The sub-query built by the inner loop at contact.py:262-267 for outer
index `i`: the last `len - i - 1` comma components, each `.strip()`ed,
joined by commas. -/
def windowText (subs : List String) (i : Nat) : String :=
  String.intercalate "," ((subs.drop (i + 1)).map pyStrip)

/-- All sliding-window sub-queries generated by the loop at
contact.py:262-267 (outer index `i` from `0` to `len - 2`). -/
def windowTexts (subs : List String) : List String :=
  (List.range (subs.length - 1)).map (windowText subs)

/-- Outcome of processing one segment: the appended result (at most one),
whether the exact first query succeeded (`flag_accurate` is only ever set
there), and the fallback query texts attempted, in order. -/
structure ElemResult where
  out : Option String
  flag : Bool
  tried : List String
deriving DecidableEq

/-- The window loop of contact.py:262-279 over the remaining outer indices:
stop at the first window whose query yields a result, otherwise record the
attempt and continue.  The second component instruments the texts tried. -/
def tryWindowsCore (fh : String → Option String) (cc : Option String)
    (subs : List String) : List Nat → Option String × List String
  | [] => (none, [])
  | i :: is =>
    match fh (encodeCC (windowText subs i) cc) with
    | some out => (some out, [windowText subs i])
    | none =>
      match tryWindowsCore fh cc subs is with
      | (r, ts) => (r, windowText subs i :: ts)

/-- contact.py:260-293: the window stage over `filtered.split(",")`, then, if
nothing was found, the degenerate first-component query. -/
def windowStage (fh : String → Option String) (cc : Option String)
    (filtered : String) : ElemResult :=
  let subs := pySplitStr ',' filtered
  match tryWindowsCore fh cc subs (List.range (subs.length - 1)) with
  | (some out, ts) => ⟨some out, false, filtered :: ts⟩
  | (none, ts) =>
    match fh (encodeCC (pyStrip (subs.headD "")) cc) with
    | some out => ⟨some out, false, filtered :: ts ++ [pyStrip (subs.headD "")]⟩
    | none => ⟨none, false, filtered :: ts ++ [pyStrip (subs.headD "")]⟩

/-- contact.py:248-293: the fallback chain entered when the exact query
failed -- country detection, the full residual query, then the windows. -/
def fallbackStage (fh : String → Option String)
    (det : String → Option String × String) (elem : String) : ElemResult :=
  match fh (encodeCC (det elem).2 (det elem).1) with
  | some out => ⟨some out, false, [(det elem).2]⟩
  | none => windowStage fh (det elem).1 (det elem).2

/-- contact.py:226-293: one iteration of `for elem in split`. -/
def processElemCore (fh : String → Option String)
    (det : String → Option String × String) (elem0 : String) : ElemResult :=
  let elem := cleanElem elem0
  if elem = "" then ⟨none, false, []⟩
  else
    match fh (encodeFirst elem) with
    | some out => ⟨some out, true, []⟩
    | none => fallbackStage fh det elem

def processElem (o : GeoOracle) (elem0 : String) : ElemResult :=
  processElemCore (fetchHead o) o.detect elem0

/-- contact.py:210-293: one record -- accumulate the appended results over
all segments and OR together `flag_accurate` (it is never reset). -/
def processRowCore (fh : String → Option String)
    (det : String → Option String × String) (geohint : String) :
    List String × Bool :=
  (segmentsOf geohint).foldl
    (fun acc elem =>
      let e := processElemCore fh det elem
      (acc.1 ++ e.out.toList, acc.2 || e.flag))
    ([], false)

def processRow (o : GeoOracle) (geohint : String) : List String × Bool :=
  processRowCore (fetchHead o) o.detect geohint

/-! ### The record loop, contact.py:146-303 -/

/-- One row of the pandas frame.  `adr` and `other` stand for the
caller-owned columns (`other` for any column `get_geoID` never touches);
`geohint`, `geoID` and `exactlocation` are the columns the function writes
(absent = `none`, like a missing cell). -/
structure Row where
  adr : String
  other : String
  geohint : Option String
  geoID : Option String
  exactlocation : Option Bool
deriving DecidableEq

/-- contact.py:178-191 -- `data['geohint'] = data['adr']` followed by the
regex substitutions, applied to every row before the loop. -/
def prepRow (r : Row) : Row :=
  { r with geohint := some (geohintPipeline r.adr) }

/-- Model of `json.dumps` on the accumulated result list; its output starts
with `[` and is therefore never the sentinel `"not found"`. -/
def jsonDumps (rs : List String) : String :=
  "[" ++ String.intercalate ", " rs ++ "]"

/-- contact.py:210-298 -- the body of one loop iteration: resolve the row's
segments and write the `geoID` / `exactlocation` cells. -/
def resolveRow (o : GeoOracle) (r : Row) : Row :=
  let res := processRow o (r.geohint.getD "")
  { r with
      geoID := some (if res.1.isEmpty then "not found" else jsonDumps res.1),
      exactlocation := some res.2 }

/-- contact.py:200-208 -- iterate the rows; before each row's work the
killswitch is polled (after `index` is bound) and, if set, the loop breaks
leaving the remaining rows untouched.  The second component is the last
bound value of the loop variable `index` (`none` when the loop never ran). -/
def runLoop (o : GeoOracle) (kill : Nat → Bool) : Nat → List Row → List Row × Option Nat
  | _, [] => ([], none)
  | i, r :: rs =>
    if kill i then (r :: rs, some i)
    else
      match runLoop o kill (i + 1) rs with
      | (rest, last) => (resolveRow o r :: rest, some (last.getD i))

/-- The possible runtime error of `get_geoID`: the final progress report at
contact.py:301 reads the loop variable `index`, which Python never bound
when the frame was empty. -/
inductive RunError
  | unboundLocal
deriving DecidableEq

/-- contact.py:146-303 -- `get_geoID(data, progress, killswitch)`.  The
reachability probe (157-163) and the progress emissions are observational
except for the final one: with a progress callback and an empty frame the
unbound `index` raises.  The frame is returned with the engine's columns
written in place. -/
def get_geoID (o : GeoOracle) (rows : List Row) (progress : Bool)
    (kill : Nat → Bool) : Except RunError (List Row) :=
  let prepped := rows.map prepRow
  match runLoop o kill 0 prepped with
  | (out, last) => if progress && last.isNone then .error .unboundLocal else .ok out

/-! ### Derived notions used by the claims -/

/-- Whether a segment's first, unmodified, country-unrestricted query
(contact.py:233-240) succeeds: the cleaned text is non-empty and the fetch
of the exact query returns at least one result. -/
def firstQuerySucceedsCore (fh : String → Option String) (elem0 : String) : Bool :=
  let elem := cleanElem elem0
  !(elem = "") && (fh (encodeFirst elem)).isSome

def firstQuerySucceeds (o : GeoOracle) (elem0 : String) : Bool :=
  firstQuerySucceedsCore (fetchHead o) elem0

/-- The full ordered fallback candidate list of one segment, paired with the
number of comma components each candidate is built from (its specificity):
the residual text, the shrinking windows, then the degenerate
first-component query. -/
def fallbackCands (filtered : String) : List (String × Nat) :=
  let subs := pySplitStr ',' filtered
  let n := subs.length
  (filtered, n) ::
    ((List.range (n - 1)).map fun i => (windowText subs i, n - 1 - i)) ++
      [(pyStrip (subs.headD ""), 1)]

/-- The `normalize` of the spec (section 4.1): the record-level `geohint`
preparation followed by decoding, tag-splitting and per-segment cleanup. -/
def normalizeSegments (raw : String) : List String :=
  (segmentsOf (geohintPipeline raw)).map cleanElem

/-- The index at which the killswitch first stops the loop started at index
`i` (the number of rows that get processed). -/
def killPoint (kill : Nat → Bool) : Nat → List Row → Nat
  | _, [] => 0
  | i, _ :: rs => if kill i then 0 else killPoint kill (i + 1) rs + 1

/-- Modelled from the spec: a `Nominatim` client after a failed reachability
probe (spec section 4.5) -- cache hits are still served, every cache miss
fails fast with `ServiceUnavailable`.  `data/nominatim.py` is not in `src/`. -/
def cacheOnlyOracle (cache : String → Option (List String))
    (det : String → Option String × String) : GeoOracle where
  fetch q := match cache q with
    | some rs => .ok rs
    | none => .error .serviceUnavailable
  detect := det

/-- A detector that finds no country token, per the spec's contract for
`detect` (no match: `countryCode = none`, text unchanged). -/
def detectNone : String → Option String × String := fun s => (none, s)

/-- An oracle whose every fetch fails with `ServiceUnavailable`. -/
def oracleSU : GeoOracle := ⟨fun _ => .error .serviceUnavailable, detectNone⟩

/-- An oracle whose every fetch fails with `NoResults`. -/
def oracleNR : GeoOracle := ⟨fun _ => .error .noResults, detectNone⟩

/-- An oracle whose every fetch succeeds with one result. -/
def oracleOK : GeoOracle := ⟨fun _ => .ok ["osm"], detectNone⟩

/-- An oracle that succeeds exactly on the encoded exact query for `"a"`. -/
def oracleOnlyA : GeoOracle :=
  ⟨fun q => if q = encodeFirst "a" then .ok ["osm"] else .error .noResults,
    detectNone⟩


/-- Sample rows used by concrete witnesses and counterexamples. -/
def rowX : Row := ⟨"x", "o", none, none, none⟩

def rowY : Row := ⟨"y", "p", none, none, none⟩

/-- A caller row that already carries a `geohint` value of its own. -/
def row9 : Row := ⟨"x", "o", some "caller", none, none⟩

/-! ## Helper lemmas -/

lemma pySplitL_ne_nil (sep : Char) (cs : List Char) : pySplitL sep cs ≠ [] := by
  cases cs with
  | nil => simp [pySplitL]
  | cons c rest =>
    unfold pySplitL
    cases h : pySplitL sep rest with
    | nil => simp
    | cons g gs => dsimp only; split <;> simp

lemma pySplitStr_length_pos (sep : Char) (s : String) : 0 < (pySplitStr sep s).length := by
  have h := pySplitL_ne_nil sep s.toList
  simpa [pySplitStr, List.length_pos] using h

lemma windowStage_flag (fh : String → Option String) (cc : Option String) (filtered : String) :
    (windowStage fh cc filtered).flag = false := by
  simp only [windowStage]
  split
  · rfl
  · split <;> rfl

lemma fallbackStage_flag (fh : String → Option String) (det : String → Option String × String)
    (elem : String) : (fallbackStage fh det elem).flag = false := by
  simp only [fallbackStage]
  split
  · rfl
  · exact windowStage_flag ..

lemma processElemCore_flag (fh : String → Option String) (det : String → Option String × String)
    (e : String) : (processElemCore fh det e).flag = firstQuerySucceedsCore fh e := by
  simp only [processElemCore, firstQuerySucceedsCore]
  split
  · simp [*]
  · rename_i hne
    split
    · rename_i out hout
      simp [hne, hout]
    · rename_i hout
      simp [fallbackStage_flag, hne, hout]

lemma processElemCore_flag_out (fh : String → Option String)
    (det : String → Option String × String) (e : String)
    (h : (processElemCore fh det e).flag = true) : (processElemCore fh det e).out.isSome := by
  revert h
  simp only [processElemCore]
  split
  · intro h; cases h
  · split
    · intro _; rfl
    · intro h; rw [fallbackStage_flag] at h; cases h

lemma processRowCore_flag (fh : String → Option String) (det : String → Option String × String)
    (h : String) :
    (processRowCore fh det h).2 = (segmentsOf h).any (firstQuerySucceedsCore fh) := by
  have H : ∀ (l : List String) (acc : List String × Bool),
      (l.foldl (fun acc elem =>
        (acc.1 ++ (processElemCore fh det elem).out.toList,
          acc.2 || (processElemCore fh det elem).flag)) acc).2
      = (acc.2 || l.any (firstQuerySucceedsCore fh)) := by
    intro l
    induction l with
    | nil => intro acc; simp
    | cons e es ih =>
      intro acc
      rw [List.foldl_cons, ih]
      simp [processElemCore_flag, Bool.or_assoc]
  simpa [processRowCore] using H (segmentsOf h) ([], false)

lemma processRowCore_result_of_flag (fh : String → Option String)
    (det : String → Option String × String) (h : String)
    (hf : (processRowCore fh det h).2 = true) : (processRowCore fh det h).1 ≠ [] := by
  have H : ∀ (l : List String) (acc : List String × Bool), (acc.2 = true → acc.1 ≠ []) →
      ((l.foldl (fun acc elem =>
        (acc.1 ++ (processElemCore fh det elem).out.toList,
          acc.2 || (processElemCore fh det elem).flag)) acc).2 = true →
       (l.foldl (fun acc elem =>
        (acc.1 ++ (processElemCore fh det elem).out.toList,
          acc.2 || (processElemCore fh det elem).flag)) acc).1 ≠ []) := by
    intro l
    induction l with
    | nil => intro acc hacc; exact hacc
    | cons e es ih =>
      intro acc hacc
      simp only [List.foldl_cons]
      apply ih
      intro h2
      have h2' : acc.2 = true ∨ (processElemCore fh det e).flag = true := by
        simpa using h2
      rcases h2' with h2 | h2
      · have := hacc h2
        simp [this]
      · have hs := processElemCore_flag_out fh det e h2
        rcases Option.isSome_iff_exists.mp hs with ⟨x, hx⟩
        simp [hx]
  revert hf
  simpa [processRowCore] using H (segmentsOf h) ([], false) (by intro h2; cases h2)

lemma tryWindowsCore_tried (fh : String → Option String) (cc : Option String)
    (subs : List String) : ∀ is : List Nat,
    (tryWindowsCore fh cc subs is).2 <+: is.map (windowText subs) ∧
    ((tryWindowsCore fh cc subs is).1 = none →
      (tryWindowsCore fh cc subs is).2 = is.map (windowText subs)) := by
  intro is
  induction is with
  | nil => simp [tryWindowsCore]
  | cons i is ih =>
    simp only [tryWindowsCore, List.map_cons]
    split
    · refine ⟨⟨is.map (windowText subs), rfl⟩, ?_⟩
      intro h; cases h
    · rcases h : tryWindowsCore fh cc subs is with ⟨r, ts⟩
      rw [h] at ih
      dsimp only at ih ⊢
      constructor
      · rcases ih.1 with ⟨tail, htail⟩
        exact ⟨tail, by rw [List.cons_append, htail]⟩
      · intro hr
        rw [ih.2 hr]

lemma fallbackCands_map_fst (filtered : String) :
    (fallbackCands filtered).map Prod.fst =
      filtered :: ((List.range ((pySplitStr ',' filtered).length - 1)).map
        (windowText (pySplitStr ',' filtered)) ++
        [pyStrip ((pySplitStr ',' filtered).headD "")]) := by
  simp only [fallbackCands, List.map_cons, List.map_append, List.map_map, List.map_nil]
  rfl

lemma windowStage_tried (fh : String → Option String) (cc : Option String) (filtered : String) :
    (windowStage fh cc filtered).tried <+: (fallbackCands filtered).map Prod.fst := by
  rw [fallbackCands_map_fst]
  have htw := tryWindowsCore_tried fh cc (pySplitStr ',' filtered)
      (List.range ((pySplitStr ',' filtered).length - 1))
  simp only [windowStage]
  rcases h : tryWindowsCore fh cc (pySplitStr ',' filtered)
      (List.range ((pySplitStr ',' filtered).length - 1)) with ⟨r, ts⟩
  rw [h] at htw
  dsimp only at htw
  cases r with
  | some out =>
    dsimp only
    rcases htw.1 with ⟨tail, htail⟩
    exact ⟨tail ++ [pyStrip ((pySplitStr ',' filtered).headD "")],
      by rw [List.cons_append, ← List.append_assoc, htail]⟩
  | none =>
    dsimp only
    rw [htw.2 rfl]
    split <;> exact ⟨[], by simp⟩

lemma processElemCore_tried (fh : String → Option String)
    (det : String → Option String × String) (e : String) :
    (processElemCore fh det e).tried <+: (fallbackCands ((det (cleanElem e)).2)).map Prod.fst := by
  simp only [processElemCore]
  split
  · exact List.nil_prefix
  · split
    · exact List.nil_prefix
    · simp only [fallbackStage]
      split
      · rw [fallbackCands_map_fst]
        exact ⟨_, List.singleton_append ..⟩
      · exact windowStage_tried ..

lemma fallbackCands_length (filtered : String) :
    ((fallbackCands filtered).map Prod.fst).length =
      (pySplitStr ',' filtered).length + 1 := by
  have h := pySplitStr_length_pos ',' filtered
  simp [fallbackCands]
  omega

lemma fallbackCands_counts (filtered : String) :
    List.Pairwise (fun a b : String × Nat => b.2 ≤ a.2) (fallbackCands filtered) := by
  have hn := pySplitStr_length_pos ',' filtered
  simp only [fallbackCands]
  rw [List.cons_append, List.pairwise_cons]
  constructor
  · intro b hb
    rcases List.mem_append.mp hb with hb | hb
    · rcases List.mem_map.mp hb with ⟨i, hi, rfl⟩
      dsimp only
      omega
    · rcases List.mem_singleton.mp hb with rfl
      dsimp only
      omega
  · rw [List.pairwise_append]
    refine ⟨?_, ?_, ?_⟩
    · refine List.Pairwise.map _ ?_ (List.pairwise_lt_range _)
      intro a b hab
      dsimp only
      omega
    · simp
    · intro a ha b hb
      rcases List.mem_map.mp ha with ⟨i, hi, rfl⟩
      rcases List.mem_singleton.mp hb with rfl
      dsimp only
      rw [List.mem_range] at hi
      omega

lemma tryWindowsCore_allFail (fh : String → Option String) (cc : Option String)
    (subs : List String) (hfh : ∀ q, fh q = none) : ∀ is : List Nat,
    (tryWindowsCore fh cc subs is).1 = none := by
  intro is
  induction is with
  | nil => rfl
  | cons i is ih =>
    simp only [tryWindowsCore, hfh]
    rcases h : tryWindowsCore fh cc subs is with ⟨r, ts⟩
    rw [h] at ih
    exact ih

lemma processElemCore_allFail (fh : String → Option String)
    (det : String → Option String × String) (e : String) (hfh : ∀ q, fh q = none) :
    (processElemCore fh det e).out = none ∧ (processElemCore fh det e).flag = false := by
  simp only [processElemCore]
  split
  · exact ⟨rfl, rfl⟩
  · rw [hfh]
    simp only [fallbackStage, hfh]
    simp only [windowStage]
    rcases h : tryWindowsCore fh (det (cleanElem e)).1 (pySplitStr ',' (det (cleanElem e)).2)
        (List.range ((pySplitStr ',' (det (cleanElem e)).2).length - 1)) with ⟨r, ts⟩
    have hr := tryWindowsCore_allFail fh (det (cleanElem e)).1
        (pySplitStr ',' (det (cleanElem e)).2) hfh
        (List.range ((pySplitStr ',' (det (cleanElem e)).2).length - 1))
    rw [h] at hr
    dsimp only at hr
    subst hr
    rw [hfh]
    exact ⟨rfl, rfl⟩

lemma processRowCore_allFail (fh : String → Option String)
    (det : String → Option String × String) (h : String) (hfh : ∀ q, fh q = none) :
    processRowCore fh det h = ([], false) := by
  unfold processRowCore
  induction segmentsOf h with
  | nil => rfl
  | cons e es ih =>
    rw [List.foldl_cons]
    have h1 := (processElemCore_allFail fh det e hfh).1
    have h2 := (processElemCore_allFail fh det e hfh).2
    simp only [h1, h2]
    simpa using ih

lemma killPoint_le (kill : Nat → Bool) : ∀ (rows : List Row) (i : Nat),
    killPoint kill i rows ≤ rows.length := by
  intro rows
  induction rows with
  | nil => intro i; simp [killPoint]
  | cons r rs ih =>
    intro i
    simp only [killPoint, List.length_cons]
    split
    · omega
    · have := ih (i + 1)
      omega

lemma killPoint_false : ∀ (rows : List Row) (i : Nat),
    killPoint (fun _ => false) i rows = rows.length := by
  intro rows
  induction rows with
  | nil => intro i; rfl
  | cons r rs ih => intro i; simp [killPoint, ih]

lemma killPoint_eq_of (kill : Nat → Bool) : ∀ (rows : List Row) (i k : Nat),
    k ≤ rows.length → (∀ j, j < k → kill (i + j) = false) → kill (i + k) = true →
    killPoint kill i rows = k := by
  intro rows
  induction rows with
  | nil =>
    intro i k hk _ _
    have hk0 : k = 0 := by simpa using hk
    subst hk0
    rfl
  | cons r rs ih =>
    intro i k hk hbefore hat
    simp only [killPoint]
    cases k with
    | zero =>
      have : kill i = true := by simpa using hat
      simp [this]
    | succ k' =>
      have h0 : kill i = false := by simpa using hbefore 0 (Nat.succ_pos k')
      rw [h0]
      simp only [Bool.false_eq_true, if_false]
      have := ih (i + 1) k' (by simpa using hk)
        (fun j hj => by
          have := hbefore (j + 1) (by omega)
          simpa [Nat.add_assoc, Nat.add_comm 1 j] using this)
        (by
          have := hat
          simpa [Nat.add_assoc, Nat.add_comm 1 k'] using this)
      omega

lemma runLoop_fst (o : GeoOracle) (kill : Nat → Bool) : ∀ (rows : List Row) (i : Nat),
    (runLoop o kill i rows).1 =
      (rows.take (killPoint kill i rows)).map (resolveRow o) ++
        rows.drop (killPoint kill i rows) := by
  intro rows
  induction rows with
  | nil => intro i; rfl
  | cons r rs ih =>
    intro i
    simp only [runLoop, killPoint]
    cases hk : kill i with
    | true => simp
    | false =>
      simp only [Bool.false_eq_true, if_false]
      rcases hrl : runLoop o kill (i + 1) rs with ⟨rest, last⟩
      dsimp only
      have := ih (i + 1)
      rw [hrl] at this
      dsimp only at this
      rw [this]
      simp [List.take_succ_cons, List.drop_succ_cons]

lemma runLoop_snd_isSome (o : GeoOracle) (kill : Nat → Bool) (i : Nat) (r : Row)
    (rs : List Row) : (runLoop o kill i (r :: rs)).2.isSome := by
  simp only [runLoop]
  cases hk : kill i with
  | true => simp
  | false =>
    simp only [Bool.false_eq_true, if_false]
    rcases runLoop o kill (i + 1) rs with ⟨rest, last⟩
    simp

lemma get_geoID_ok (o : GeoOracle) (rows : List Row) (progress : Bool) (kill : Nat → Bool)
    (out : List Row) (h : get_geoID o rows progress kill = .ok out) :
    out = (runLoop o kill 0 (rows.map prepRow)).1 := by
  unfold get_geoID at h
  rcases hrl : runLoop o kill 0 (rows.map prepRow) with ⟨o1, last⟩
  simp only [hrl] at h
  split at h
  · simp at h
  · injection h with h2
    exact h2.symm

lemma get_geoID_no_progress (o : GeoOracle) (rows : List Row) (kill : Nat → Bool) :
    get_geoID o rows false kill = .ok (runLoop o kill 0 (rows.map prepRow)).1 := by
  unfold get_geoID
  rcases hrl : runLoop o kill 0 (rows.map prepRow) with ⟨o1, last⟩
  simp [hrl]

lemma killPoint_map (kill : Nat → Bool) (f : Row → Row) : ∀ (rows : List Row) (i : Nat),
    killPoint kill i (rows.map f) = killPoint kill i rows := by
  intro rows
  induction rows with
  | nil => intro i; rfl
  | cons r rs ih => intro i; simp [killPoint, ih]

/-! ## Claim theorems -/

/-- C1 (amended): a record's `exactlocation` flag is true iff the first,
unmodified, country-unrestricted query succeeded for AT LEAST ONE non-empty
segment of the record -- `flag_accurate` is set on any segment's
first-query success and never reset (contact.py:223, 240, 298). -/
theorem c1_exact_flag_any_segment (o : GeoOracle) (r : Row) :
    (resolveRow o r).exactlocation =
      some ((segmentsOf (r.geohint.getD "")).any (firstQuerySucceeds o)) := by
  simp only [resolveRow, processRow, firstQuerySucceeds]
  rw [processRowCore_flag]
  rfl

/-- C1, counterexample to the claim as stated: for a record with two
segments where only segment `"a"`'s first query succeeds and segment
`"b"`'s first query fails, the code still reports `exactlocation = true`,
although the claim requires the first query to succeed for EVERY segment. -/
theorem c1_counterexample :
    get_geoID oracleOnlyA [⟨"HOME: a WORK: b", "", none, none, none⟩] false (fun _ => false) =
      .ok [⟨"HOME: a WORK: b", "", some "HOME: a WORK: b", some "[osm]", some true⟩] ∧
    firstQuerySucceeds oracleOnlyA "b" = false :=
  ⟨rfl, rfl⟩

/-- C2: for a segment whose residual text splits on commas into `n`
components, the fallback candidates actually tried are a prefix of the full
candidate list, hence at most `2 + (n - 1)` of them, and the full candidate
list is specificity-descending (the number of comma components each
candidate is built from never increases along the list). -/
theorem c2_fallback_bound_and_order (o : GeoOracle) (elem : String) :
    (processElem o elem).tried.length ≤
      2 + ((pySplitStr ',' ((o.detect (cleanElem elem)).2)).length - 1) ∧
    (processElem o elem).tried <+:
      (fallbackCands ((o.detect (cleanElem elem)).2)).map Prod.fst ∧
    List.Pairwise (fun a b : String × Nat => b.2 ≤ a.2)
      (fallbackCands ((o.detect (cleanElem elem)).2)) := by
  have hpre := processElemCore_tried (fetchHead o) o.detect elem
  refine ⟨?_, hpre, fallbackCands_counts _⟩
  have hlen := hpre.length_le
  have hn := pySplitStr_length_pos ',' ((o.detect (cleanElem elem)).2)
  have hc := fallbackCands_length ((o.detect (cleanElem elem)).2)
  simp only [processElem]
  omega

/-- C3: evaluation of the window stage at the residual text `"a,b,c"`
(three components): the code generates the windows `"b,c"` and `"c"` --
sizes 2 then 1 -- not the specified last-3 down to last-2 windows, and the
full fallback sequence tried is `"a,b,c"`, `"b,c"`, `"c"`, `"a"`.  This
contradicts the loop's own comment `n = length - i > 1` (contact.py:265). -/
theorem c3_window_bounds_eval :
    pySplitStr ',' "a,b,c" = ["a", "b", "c"] ∧
    windowTexts ["a", "b", "c"] = ["b,c", "c"] ∧
    (processElem oracleNR "a,b,c").tried = ["a,b,c", "b,c", "c", "a"] :=
  ⟨rfl, rfl, rfl⟩

/-- C4 (amended): the orchestrator's continuation never depends on the
failure kind -- its bare `except:` blocks make any two oracles that agree
on which queries succeed (and with which first result) behave identically,
whatever mixture of `ServiceUnavailable` and `NoResults` they produce; and
on a first non-empty result the engine records it and tries no fallback
candidate at all. -/
theorem c4_failure_kind_invariance (o o' : GeoOracle) (elem : String) :
    ((∀ q, fetchHead o q = fetchHead o' q) → o.detect = o'.detect →
      processElem o elem = processElem o' elem) ∧
    (∀ r, cleanElem elem ≠ "" → fetchHead o (encodeFirst (cleanElem elem)) = some r →
      processElem o elem = ⟨some r, true, []⟩) := by
  constructor
  · intro h1 h2
    unfold processElem
    rw [funext h1, h2]
  · intro r hne hsome
    simp only [processElem, processElemCore]
    rw [if_neg hne, hsome]

theorem c4_witness :
    processElem oracleSU "x" = processElem oracleNR "x" ∧
    processElem oracleOK "x" = ⟨some "osm", true, []⟩ :=
  ⟨(c4_failure_kind_invariance oracleSU oracleNR "x").1 (fun _ => rfl) rfl,
    (c4_failure_kind_invariance oracleOK oracleOK "x").2 "osm" (by decide) rfl⟩

/-- C4, counterexample to the claim as stated: with every fetch failing as
`ServiceUnavailable`, after the exact query of segment `"x,y"` fails with
`ServiceUnavailable` the engine does NOT abandon the remaining
network-dependent candidates -- it goes on to attempt all three fallback
queries `"x,y"`, `"y"`, `"x"`. -/
theorem c4_counterexample :
    oracleSU.fetch (encodeFirst (cleanElem "x,y")) = .error .serviceUnavailable ∧
    (processElem oracleSU "x,y").tried = ["x,y", "y", "x"] ∧
    (processElem oracleSU "x,y").out = none :=
  ⟨rfl, rfl, rfl⟩

/-- C5: with the service unreachable (modelled per the spec: every cache
miss fails fast as `ServiceUnavailable`) and an empty cache, the run
returns normally and every record's outcome is `geoID = "not found"` with
`exactlocation = false`. -/
theorem c5_cache_only_outcomes (det : String → Option String × String) (rows : List Row)
    (progress : Bool) (hne : rows ≠ []) :
    ∃ out, get_geoID (cacheOnlyOracle (fun _ => none) det) rows progress (fun _ => false) =
        .ok out ∧
      out.length = rows.length ∧
      ∀ r ∈ out, r.geoID = some "not found" ∧ r.exactlocation = some false := by
  set o := cacheOnlyOracle (fun _ => none) det with ho
  have hfh : ∀ q, fetchHead o q = none := fun q => rfl
  refine ⟨(runLoop o (fun _ => false) 0 (rows.map prepRow)).1, ?_, ?_, ?_⟩
  · unfold get_geoID
    rcases hrows : rows with _ | ⟨r, rs⟩
    · exact absurd hrows hne
    · have hsome := runLoop_snd_isSome o (fun _ => false) 0 (prepRow r) (rs.map prepRow)
      rcases hrl : runLoop o (fun _ => false) 0 ((r :: rs).map prepRow) with ⟨o1, last⟩
      rw [List.map_cons] at hrl
      rw [hrl] at hsome
      simp only [List.map_cons, hrl]
      have : last.isNone = false := by
        rcases last with _ | v
        · simp at hsome
        · rfl
      simp [this]
  · rw [runLoop_fst, killPoint_false]
    simp
  · intro r hr
    rw [runLoop_fst, killPoint_false] at hr
    simp only [List.take_length, List.drop_length, List.append_nil] at hr
    rcases List.mem_map.mp hr with ⟨p, hp, rfl⟩
    have hrow := processRowCore_allFail (fetchHead o) o.detect (p.geohint.getD "") hfh
    constructor
    · simp [resolveRow, processRow, hrow]
    · simp [resolveRow, processRow, hrow]

theorem c5_witness :
    ∃ out, get_geoID (cacheOnlyOracle (fun _ => none) detectNone) [rowX] true (fun _ => false) =
        .ok out ∧
      out.length = [rowX].length ∧
      ∀ r ∈ out, r.geoID = some "not found" ∧ r.exactlocation = some false :=
  c5_cache_only_outcomes detectNone [rowX] true (by simp)

/-- C6: whenever `get_geoID` returns, its output is the processed prefix of
the input (one written outcome per processed record, the rest only
`geohint`-prepped), and for every row the written outcome has `geoID` set,
with `geoID = "not found"` and `exactlocation = false` when no segment
resolved -- never a missing entry. -/
theorem c6_outcome_per_record (o : GeoOracle) (rows : List Row) (progress : Bool)
    (kill : Nat → Bool) (out : List Row)
    (h : get_geoID o rows progress kill = .ok out) :
    ∃ k, k ≤ rows.length ∧
      out = (rows.take k).map (fun r => resolveRow o (prepRow r)) ++
        (rows.drop k).map prepRow ∧
      ∀ r : Row, (resolveRow o r).geoID.isSome ∧
        ((processRow o (r.geohint.getD "")).1 = [] →
          (resolveRow o r).geoID = some "not found" ∧
          (resolveRow o r).exactlocation = some false) := by
  refine ⟨killPoint kill 0 rows, ?_, ?_, ?_⟩
  · exact killPoint_le kill rows 0
  · rw [get_geoID_ok o rows progress kill out h, runLoop_fst, killPoint_map]
    rw [← List.map_take, ← List.map_drop, List.map_map]
    rfl
  · intro r
    constructor
    · rfl
    · intro hres
      have hflag : (processRow o (r.geohint.getD "")).2 = false := by
        by_contra hcon
        have : (processRow o (r.geohint.getD "")).2 = true := by
          revert hcon
          cases (processRow o (r.geohint.getD "")).2 <;> simp
        exact processRowCore_result_of_flag (fetchHead o) o.detect (r.geohint.getD "")
          this hres
      constructor
      · simp [resolveRow, hres]
      · simp [resolveRow, hflag]

theorem c6_witness :
    ∃ k, k ≤ [rowX].length ∧
      ([⟨"x", "o", some "x", some "not found", some false⟩] : List Row) =
        ([rowX].take k).map (fun r => resolveRow oracleNR (prepRow r)) ++
          ([rowX].drop k).map prepRow ∧
      ∀ r : Row, (resolveRow oracleNR r).geoID.isSome ∧
        ((processRow oracleNR (r.geohint.getD "")).1 = [] →
          (resolveRow oracleNR r).geoID = some "not found" ∧
          (resolveRow oracleNR r).exactlocation = some false) :=
  c6_outcome_per_record oracleNR [rowX] false (fun _ => false)
    [⟨"x", "o", some "x", some "not found", some false⟩] rfl

/-- C7: if the killswitch is clear for records `0..k-1` and set when record
`k` is reached, `get_geoID` returns the first `k` records fully resolved,
the rest untouched (beyond the upfront `geohint` preparation), and --
whenever the caller's rows carry no prior `geoID` -- exactly `k` outcomes,
with no partial or duplicated outcome for record `k`. -/
theorem c7_cancellation_exact_k (o : GeoOracle) (rows : List Row) (kill : Nat → Bool)
    (k : Nat) (hk : k ≤ rows.length) (hbefore : ∀ i, i < k → kill i = false)
    (hat : kill k = true) (hclean : ∀ r ∈ rows, r.geoID = none) :
    get_geoID o rows false kill =
      .ok ((rows.take k).map (fun r => resolveRow o (prepRow r)) ++
        (rows.drop k).map prepRow) ∧
    (((rows.take k).map (fun r => resolveRow o (prepRow r)) ++
        (rows.drop k).map prepRow).countP (fun r => r.geoID.isSome)) = k := by
  have hkp : killPoint kill 0 rows = k :=
    killPoint_eq_of kill rows 0 k hk (fun j hj => by simpa using hbefore j hj)
      (by simpa using hat)
  constructor
  · rw [get_geoID_no_progress, runLoop_fst, killPoint_map, hkp]
    rw [← List.map_take, ← List.map_drop, List.map_map]
    rfl
  · rw [List.countP_append]
    have h1 : ((rows.take k).map (fun r => resolveRow o (prepRow r))).countP
        (fun r => r.geoID.isSome) = k := by
      rw [List.countP_eq_length.mpr, List.length_map, List.length_take]
      · omega
      · intro a ha
        rcases List.mem_map.mp ha with ⟨p, hp, rfl⟩
        rfl
    have h2 : ((rows.drop k).map prepRow).countP (fun r => r.geoID.isSome) = 0 := by
      rw [List.countP_eq_zero]
      intro a ha
      rcases List.mem_map.mp ha with ⟨p, hp, rfl⟩
      have : p.geoID = none := hclean p (List.mem_of_mem_drop hp)
      simp [prepRow, this]
    omega

theorem c7_witness :
    get_geoID oracleNR [rowX, rowY] false (fun i => i == 1) =
      .ok (([rowX, rowY].take 1).map (fun r => resolveRow oracleNR (prepRow r)) ++
        ([rowX, rowY].drop 1).map prepRow) ∧
    ((([rowX, rowY].take 1).map (fun r => resolveRow oracleNR (prepRow r)) ++
        ([rowX, rowY].drop 1).map prepRow).countP (fun r => r.geoID.isSome)) = 1 :=
  c7_cancellation_exact_k oracleNR [rowX, rowY] (fun i => i == 1) 1 (by simp)
    (fun i hi => by
      have : i = 0 := by omega
      subst this
      rfl)
    rfl
    (by
      intro r hr
      rcases List.mem_cons.mp hr with rfl | hr
      · rfl
      · rcases List.mem_singleton.mp hr with rfl
        rfl)

/-- C8: the failing input for normalization idempotence.  For the raw
address `"a  , b"` (two spaces before the comma) one normalization pass
yields the segment `"a , b"`, but normalizing that segment again yields
`"a, b"`: `normalize(normalize(x).segments[0]) ≠ normalize(x)`.  The
whitespace-collapse substitution at contact.py:188 discards its result
(missing `inplace=True`, contradicting the comment above it), so the
double space survives the first pass and feeds the comma-collapsing regex
differently on the second. -/
theorem c8_normalize_not_idempotent :
    normalizeSegments "a  , b" = ["a , b"] ∧
    normalizeSegments ((normalizeSegments "a  , b").headD "") = ["a, b"] :=
  ⟨rfl, rfl⟩

/-- C9 (amended): `adr` and every column the engine does not own are
returned unchanged, but the outcomes are written into the caller's rows in
place (`geohint`, `geoID`, `exactlocation`) rather than emitted
separately. -/
theorem c9_caller_fields_preserved (o : GeoOracle) (rows : List Row) (progress : Bool)
    (kill : Nat → Bool) (out : List Row) (h : get_geoID o rows progress kill = .ok out) :
    out.map (fun r => (r.adr, r.other)) = rows.map (fun r => (r.adr, r.other)) := by
  rw [get_geoID_ok o rows progress kill out h, runLoop_fst]
  generalize killPoint kill 0 (rows.map prepRow) = k
  rw [← List.map_take, ← List.map_drop, List.map_append, List.map_map, List.map_map,
    List.map_map]
  show (rows.take k).map (fun r => (r.adr, r.other)) ++
      (rows.drop k).map (fun r => (r.adr, r.other)) =
    rows.map fun r => (r.adr, r.other)
  rw [← List.map_append, List.take_append_drop]

theorem c9_witness :
    ([⟨"x", "o", some "x", some "not found", some false⟩] : List Row).map
        (fun r => (r.adr, r.other)) =
      [row9].map (fun r => (r.adr, r.other)) :=
  c9_caller_fields_preserved oracleNR [row9] false (fun _ => false)
    [⟨"x", "o", some "x", some "not found", some false⟩] rfl

/-- C9, counterexample to the claim as stated: running the pass on a caller
row that already carries `geohint = "caller"` returns the caller's record
with `geohint` overwritten to `"x"` and `geoID`/`exactlocation` written
into it -- the engine modifies the caller's records instead of only
emitting separate outcomes. -/
theorem c9_counterexample :
    get_geoID oracleNR [row9] false (fun _ => false) =
      .ok [⟨"x", "o", some "x", some "not found", some false⟩] ∧
    (⟨"x", "o", some "x", some "not found", some false⟩ : Row).geohint ≠ row9.geohint :=
  ⟨rfl, by decide⟩

/-- C10: on an empty input frame, `get_geoID` fails (the loop variable
`index` read by the final progress report at contact.py:301 was never
bound) when a progress callback is supplied, and returns the empty outcome
list when none is. -/
theorem c10_empty_frame (o : GeoOracle) (kill : Nat → Bool) :
    get_geoID o [] true kill = .error .unboundLocal ∧
    get_geoID o [] false kill = .ok [] :=
  ⟨rfl, rfl⟩

end OCB
